import Mathlib

/-!
Verification development for the `plugin.video.areena` catalog/stream pipeline.

The Python modules `yle.py`, `kaltura.py`, `misc.py` and `router.py` are
shallowly embedded below.  JSON values are modelled by the inductive `JVal`;
Python exceptions are modelled by the `PyErr` error type and fallible code
returns `Except PyErr _`.  Strings manipulated character-by-character are
modelled as `List Char` (with `String.mk`/`String.data` mediating).
-/

/-- Model of a parsed JSON value (the shapes produced by `site.json()`). -/
inductive JVal where
  | null
  | str (s : String)
  | num (n : Int)
  | arr (xs : List JVal)
  | obj (fields : List (String × JVal))

/-- Python exception kinds that the embedded code can raise. -/
inductive PyErr where
  | attributeError
  | keyError
  | indexError
  | typeError
  | valueError
  | stopIteration
  | unboundLocalError
deriving DecidableEq, Repr

/-- The exception classes caught by the broad
`except (AttributeError, LookupError, TypeError, ValueError)` clauses
(`KeyError` and `IndexError` are `LookupError` subclasses). -/
def pyCaught : PyErr → Bool
  | .attributeError => true
  | .keyError => true
  | .indexError => true
  | .typeError => true
  | .valueError => true
  | .stopIteration => false
  | .unboundLocalError => false

/-- Python truthiness of a JSON value (`if not x`). -/
def pyTruthy : JVal → Bool
  | .null => false
  | .str s => !s.data.isEmpty
  | .num n => n ≠ 0
  | .arr xs => !xs.isEmpty
  | .obj fs => !fs.isEmpty

/-- First binding of a key in an association list (JSON objects have
unique keys; Python `dict` lookup). -/
def jlookup (fs : List (String × JVal)) (k : String) : Option JVal :=
  (fs.find? (fun p => p.1 = k)).map (·.2)

/-- Python `d.get(k, default)`: raises `AttributeError` when the receiver is
not a dict. -/
def dictGetD (v : JVal) (k : String) (d : JVal) : Except PyErr JVal :=
  match v with
  | .obj fs => .ok ((jlookup fs k).getD d)
  | _ => .error .attributeError

/-- Python subscript `v[k]` with a string key: `KeyError` when the key is
missing, `TypeError` when the receiver is not a dict. -/
def pyItem (v : JVal) (k : String) : Except PyErr JVal :=
  match v with
  | .obj fs =>
      match jlookup fs k with
      | some w => .ok w
      | none => .error .keyError
  | _ => .error .typeError

/-- Python `==` between a JSON value and a string literal. -/
def jeqStr (v : JVal) (s : String) : Bool :=
  match v with
  | .str t => t = s
  | _ => false

/-- Python `==` between a JSON value and an integer literal. -/
def jeqNum (v : JVal) (n : Int) : Bool :=
  match v with
  | .num m => m = n
  | _ => false

/-- Python `str(..)` as used in f-string interpolation.  Only the `str` and
`num` cases are exercised by the embedded code paths under verification. -/
def pyStr : JVal → String
  | .null => "None"
  | .str s => s
  | .num n => toString n
  | .arr _ => ""
  | .obj _ => ""

/-- Python `s.split(sep)` for a one-character separator, on character lists. -/
def splitOnChar (sep : Char) : List Char → List (List Char)
  | [] => [[]]
  | c :: cs =>
      let r := splitOnChar sep cs
      if c = sep then [] :: r
      else
        match r with
        | h :: t => (c :: h) :: t
        | [] => [[c]]

theorem splitOnChar_ne_nil (sep : Char) (l : List Char) : splitOnChar sep l ≠ [] := by
  induction l with
  | nil => simp [splitOnChar]
  | cons c cs ih =>
      simp only [splitOnChar]
      split
      · simp
      · cases h : splitOnChar sep cs with
        | nil => exact absurd h ih
        | cons a t => simp

theorem splitOnChar_head (sep : Char) (l : List Char) :
    (splitOnChar sep l).headD [] = l.takeWhile (fun c => c ≠ sep) := by
  induction l with
  | nil => simp [splitOnChar]
  | cons c cs ih =>
      simp only [splitOnChar, List.takeWhile]
      by_cases hc : c = sep
      · simp [hc]
      · simp only [if_neg hc]
        cases h : splitOnChar sep cs with
        | nil => exact absurd h (splitOnChar_ne_nil sep cs)
        | cons a t =>
            rw [h] at ih
            simp only [List.headD_cons] at ih
            simp [hc, decide_eq_true_eq, ih]

theorem splitOnChar_cons_sep (sep : Char) (pre tail : List Char)
    (hpre : ∀ c ∈ pre, c ≠ sep) :
    splitOnChar sep (pre ++ sep :: tail) = pre :: splitOnChar sep tail := by
  induction pre with
  | nil => simp [splitOnChar]
  | cons c cs ih =>
      have hc : c ≠ sep := hpre c (by simp)
      have ih' := ih (fun d hd => hpre d (by simp [hd]))
      simp only [List.cons_append, splitOnChar, if_neg hc, List.append_eq, ih']

/-- `yle.get_kaltura_id_or_none`: routes a primary-provider media id to the
secondary provider.  Prefix `29` selects the second `-`-separated field;
`55`/`67` yield the empty string; any other truthy id is logged and then hits
Python's `UnboundLocalError` on the unassigned `media_id`. -/
def get_kaltura_id_or_none (media_data : JVal) : Except PyErr String :=
  if pyTruthy media_data = false then .ok ""
  else
    match media_data with
    | .str s =>
        let media_info := splitOnChar '-' s.data
        if media_info.headD [] = ['2', '9'] then
          match media_info with
          | _ :: x :: _ => .ok (String.mk x)
          | _ => .error .indexError
        else if media_info.headD [] = ['5', '5'] ∨ media_info.headD [] = ['6', '7'] then
          .ok ""
        else .error .unboundLocalError
    | _ => .error .attributeError

/-- The claim's reading of the `29` branch (remainder after the first `-`)
fails: `"29-a-b"` yields only the field `"a"`, not the remainder `"a-b"`. -/
theorem get_kaltura_id_remainder_counterexample :
    get_kaltura_id_or_none (JVal.str "29-a-b") = .ok "a" ∧
      get_kaltura_id_or_none (JVal.str "29-a-b") ≠ .ok "a-b" := by
  constructor
  · rfl
  · intro h
    simp [get_kaltura_id_or_none, pyTruthy, splitOnChar] at h

/-- C1 (amended): prefix `29` yields the field between the first and second
`-` (for ids with a single `-`, the whole remainder); `55`/`67` yield `""`;
any other nonempty id whose first `-`-field is not one of these raises the
unrecognized-provider condition (`UnboundLocalError` after logging). -/
theorem get_kaltura_id_routing (t : List Char) :
    get_kaltura_id_or_none (.str (String.mk ('2' :: '9' :: '-' :: t)))
        = .ok (String.mk (t.takeWhile (fun c => c ≠ '-'))) ∧
    get_kaltura_id_or_none (.str (String.mk ('5' :: '5' :: '-' :: t))) = .ok "" ∧
    get_kaltura_id_or_none (.str (String.mk ('6' :: '7' :: '-' :: t))) = .ok "" ∧
    (∀ s : String, s ≠ "" →
      s.data.takeWhile (fun c => c ≠ '-') ≠ ['2', '9'] →
      s.data.takeWhile (fun c => c ≠ '-') ≠ ['5', '5'] →
      s.data.takeWhile (fun c => c ≠ '-') ≠ ['6', '7'] →
      get_kaltura_id_or_none (.str s) = .error .unboundLocalError) := by
  have hsplit29 : splitOnChar '-' ('2' :: '9' :: '-' :: t) = ['2', '9'] :: splitOnChar '-' t :=
    splitOnChar_cons_sep '-' ['2', '9'] t (by decide)
  have hsplit55 : splitOnChar '-' ('5' :: '5' :: '-' :: t) = ['5', '5'] :: splitOnChar '-' t :=
    splitOnChar_cons_sep '-' ['5', '5'] t (by decide)
  have hsplit67 : splitOnChar '-' ('6' :: '7' :: '-' :: t) = ['6', '7'] :: splitOnChar '-' t :=
    splitOnChar_cons_sep '-' ['6', '7'] t (by decide)
  refine ⟨?_, ?_, ?_, ?_⟩
  · cases h : splitOnChar '-' t with
    | nil => exact absurd h (splitOnChar_ne_nil '-' t)
    | cons a r =>
        have ha : a = t.takeWhile (fun c => c ≠ '-') := by
          have hh := splitOnChar_head '-' t
          rw [h] at hh
          simpa using hh
        simp [get_kaltura_id_or_none, pyTruthy, hsplit29, h, ha]
  · simp [get_kaltura_id_or_none, pyTruthy, hsplit55]
  · simp [get_kaltura_id_or_none, pyTruthy, hsplit67]
  · intro s hs h29 h55 h67
    have hdata : s.data ≠ [] := by
      intro h
      apply hs
      cases s with
      | mk l => simp at h; simp [h]
    have hh := splitOnChar_head '-' s.data
    simp only [get_kaltura_id_or_none, pyTruthy]
    rw [if_neg (by simp [hdata])]
    rw [if_neg (by rw [hh]; exact h29)]
    rw [if_neg (by rw [hh]; tauto)]

/-- Witness for the routing theorem at concrete ids. -/
theorem get_kaltura_id_routing_witness :
    get_kaltura_id_or_none (.str "29-xyz") = .ok "xyz" ∧
    get_kaltura_id_or_none (.str "55-x") = .ok "" ∧
    get_kaltura_id_or_none (.str "67-x") = .ok "" ∧
    get_kaltura_id_or_none (.str "99-x") = .error .unboundLocalError := by
  refine ⟨?_, (get_kaltura_id_routing ['x']).2.1, (get_kaltura_id_routing ['x']).2.2.1, ?_⟩
  · have h := (get_kaltura_id_routing ['x', 'y', 'z']).1
    simpa using h
  · exact (get_kaltura_id_routing []).2.2.2 "99-x" (by decide) (by decide) (by decide) (by decide)

/-! ## kaltura.py -/

/-- Playback mode selecting the delivery profile (`get_hd_mpd_stream_manifest`). -/
inductive Mode where
  | live
  | download
  | vod
deriving DecidableEq, Repr

/-- The mode-specific `target_stream` constants from `get_hd_mpd_stream_manifest`. -/
def targetStream : Mode → Int
  | .live => 16231
  | .download => 14441
  | .vod => 14471

/-- Scanning part of the regex `[0-9][^,/]+,`: after the mandatory first run
character, consume run characters until the terminating comma; a `/` or the
end of input kills the match (the greedy `[^,/]+` can never backtrack onto a
comma, so this is exactly `re` behaviour). -/
def consumeRun : List Char → Option (List Char)
  | [] => none
  | c :: cs => if c = ',' then some cs else if c = '/' then none else consumeRun cs

/-- Match `[^,/]+,` at the head of the input, returning what follows the comma. -/
def flavorTail : List Char → Option (List Char)
  | [] => none
  | c :: cs => if c = ',' ∨ c = '/' then none else consumeRun cs

theorem consumeRun_length : ∀ l r, consumeRun l = some r → r.length < l.length := by
  intro l
  induction l with
  | nil => intro r h; simp [consumeRun] at h
  | cons c cs ih =>
      intro r h
      simp only [consumeRun] at h
      split at h
      · cases h; simp
      · split at h
        · cases h
        · exact Nat.lt_succ_of_lt (ih r h)

theorem flavorTail_length : ∀ l r, flavorTail l = some r → r.length < l.length := by
  intro l r h
  cases l with
  | nil => simp [flavorTail] at h
  | cons c cs =>
      simp only [flavorTail] at h
      split at h
      · cases h
      · exact Nat.lt_succ_of_lt (consumeRun_length cs r h)

/-- `re.sub("[0-9][^,/]+,", "", manifest)`: remove every leftmost
non-overlapping occurrence of a digit followed by at least one
non-comma/non-slash character and a terminating comma. -/
def stripFlavors : List Char → List Char
  | [] => []
  | c :: cs =>
      if c.isDigit then
        match h : flavorTail cs with
        | some rest => stripFlavors rest
        | none => c :: stripFlavors cs
      else c :: stripFlavors cs
termination_by l => l.length
decreasing_by
  · exact Nat.lt_succ_of_lt (flavorTail_length cs rest h)
  · exact Nat.lt_succ_self _
  · exact Nat.lt_succ_self _

/-- First source matching the delivery profile, as the Python generator
`(s.get("url") for s in sources if s.get("deliveryProfileId") == target)`:
non-dict entries reached before a match raise `AttributeError`; a matching
entry yields its (possibly missing) `url`. -/
def findSourceUrl (target : Int) : List JVal → Except PyErr (Option JVal)
  | [] => .ok none
  | s :: rest =>
      match s with
      | .obj fs =>
          if jeqNum ((jlookup fs "deliveryProfileId").getD .null) target then
            .ok (some ((jlookup fs "url").getD .null))
          else findSourceUrl target rest
      | _ => .error .attributeError

/-- `kaltura.get_hd_mpd_stream_manifest`: select the first source whose
`deliveryProfileId` equals the mode's constant (`StopIteration` when none
matches), and in download mode strip all flavor tokens but the last from the
manifest URL. -/
def get_hd_mpd_stream_manifest (sources : List JVal) (mode : Mode) : Except PyErr JVal := do
  match ← findSourceUrl (targetStream mode) sources with
  | none => throw .stopIteration
  | some m =>
      if mode = .download then
        match m with
        | .str u => pure (.str (String.mk (stripFlavors u.data)))
        | _ => throw .typeError
      else pure m

/-- Whether the embedded code treats a JSON value as a dict. -/
def isObjJ : JVal → Bool
  | .obj _ => true
  | _ => false

/-- `s.get("deliveryProfileId") == target` for a sources-list entry. -/
def srcMatches (target : Int) (s : JVal) : Bool :=
  match s with
  | .obj fs => jeqNum ((jlookup fs "deliveryProfileId").getD .null) target
  | _ => false

/-- `s.get("url")` of a sources-list entry. -/
def srcUrl : JVal → JVal
  | .obj fs => (jlookup fs "url").getD .null
  | _ => .null

theorem findSourceUrl_none (target : Int) :
    ∀ sources : List JVal, (∀ s ∈ sources, srcMatches target s = false) →
      (∀ s ∈ sources, isObjJ s = true) →
      findSourceUrl target sources = .ok none := by
  intro sources
  induction sources with
  | nil => intro _ _; rfl
  | cons s rest ih =>
      intro hm ho
      have hs := hm s (by simp)
      have hobj := ho s (by simp)
      cases s with
      | obj fs =>
          simp only [srcMatches] at hs
          simp only [findSourceUrl, hs, if_neg]
          exact ih (fun t ht => hm t (by simp [ht])) (fun t ht => ho t (by simp [ht]))
      | null => simp [isObjJ] at hobj
      | str _ => simp [isObjJ] at hobj
      | num _ => simp [isObjJ] at hobj
      | arr _ => simp [isObjJ] at hobj

theorem findSourceUrl_first (target : Int) :
    ∀ (pre : List JVal) (s : JVal) (rest : List JVal),
      (∀ t ∈ pre, srcMatches target t = false) →
      (∀ t ∈ pre, isObjJ t = true) →
      srcMatches target s = true →
      findSourceUrl target (pre ++ s :: rest) = .ok (some (srcUrl s)) := by
  intro pre
  induction pre with
  | nil =>
      intro s rest _ _ hs
      cases s with
      | obj fs => simp only [srcMatches] at hs; simp [findSourceUrl, hs, srcUrl]
      | null => simp [srcMatches] at hs
      | str _ => simp [srcMatches] at hs
      | num _ => simp [srcMatches] at hs
      | arr _ => simp [srcMatches] at hs
  | cons t pre ih =>
      intro s rest hm ho hs
      have ht := hm t (by simp)
      have hobj := ho t (by simp)
      cases t with
      | obj fs =>
          simp only [srcMatches] at ht
          simp only [List.cons_append, findSourceUrl, ht, if_neg]
          exact ih s rest (fun x hx => hm x (by simp [hx])) (fun x hx => ho x (by simp [hx])) hs
      | null => simp [isObjJ] at hobj
      | str _ => simp [isObjJ] at hobj
      | num _ => simp [isObjJ] at hobj
      | arr _ => simp [isObjJ] at hobj

/-- C2: the secondary resolver picks exactly the first source whose
`deliveryProfileId` equals the fixed per-mode constant; the three mode
constants are pairwise distinct; and with no matching source it fails with
`StopIteration` instead of picking an alternate source. -/
theorem hd_mpd_selection (mode : Mode) (sources : List JVal) :
    ((∀ s ∈ sources, isObjJ s = true) →
      (∀ s ∈ sources, srcMatches (targetStream mode) s = false) →
      get_hd_mpd_stream_manifest sources mode = .error .stopIteration) ∧
    (∀ (pre : List JVal) (s : JVal) (rest : List JVal),
      sources = pre ++ s :: rest →
      (∀ t ∈ pre, isObjJ t = true) →
      (∀ t ∈ pre, srcMatches (targetStream mode) t = false) →
      srcMatches (targetStream mode) s = true →
      get_hd_mpd_stream_manifest sources mode =
        (if mode = .download then
          match srcUrl s with
          | .str u => .ok (.str (String.mk (stripFlavors u.data)))
          | _ => .error .typeError
        else .ok (srcUrl s))) ∧
    (targetStream .live ≠ targetStream .download ∧
      targetStream .live ≠ targetStream .vod ∧
      targetStream .download ≠ targetStream .vod) := by
  refine ⟨?_, ?_, by decide⟩
  · intro ho hm
    simp only [get_hd_mpd_stream_manifest,
      findSourceUrl_none (targetStream mode) sources hm ho]
    rfl
  · intro pre s rest hdec ho hm hs
    subst hdec
    simp only [get_hd_mpd_stream_manifest,
      findSourceUrl_first (targetStream mode) pre s rest hm ho hs]
    cases mode with
    | download =>
        simp only [if_pos rfl]
        cases srcUrl s <;> rfl
    | live => rfl
    | vod => rfl

/-- Witness for the selection theorem: among two matching vod sources the
first one wins, and a profile-less response is fatal. -/
theorem hd_mpd_selection_witness :
    get_hd_mpd_stream_manifest
        [JVal.obj [("deliveryProfileId", JVal.num 99)],
         JVal.obj [("deliveryProfileId", JVal.num 14471), ("url", JVal.str "U")],
         JVal.obj [("deliveryProfileId", JVal.num 14471), ("url", JVal.str "V")]]
        Mode.vod = .ok (JVal.str "U") ∧
    get_hd_mpd_stream_manifest [JVal.obj [("deliveryProfileId", JVal.num 99)]]
        Mode.vod = .error .stopIteration := by
  constructor
  · have h := (hd_mpd_selection Mode.vod
        [JVal.obj [("deliveryProfileId", JVal.num 99)],
         JVal.obj [("deliveryProfileId", JVal.num 14471), ("url", JVal.str "U")],
         JVal.obj [("deliveryProfileId", JVal.num 14471), ("url", JVal.str "V")]]).2.1
        [JVal.obj [("deliveryProfileId", JVal.num 99)]]
        (JVal.obj [("deliveryProfileId", JVal.num 14471), ("url", JVal.str "U")])
        [JVal.obj [("deliveryProfileId", JVal.num 14471), ("url", JVal.str "V")]]
        rfl (by decide) (by decide) (by decide)
    simpa using h
  · exact (hd_mpd_selection Mode.vod
        [JVal.obj [("deliveryProfileId", JVal.num 99)]]).1 (by decide) (by decide)

/-- Comma-join of flavor tokens, as they occur inside a Kaltura manifest URL. -/
def joinComma : List (List Char) → List Char
  | [] => []
  | [t] => t
  | t :: ts => t ++ ',' :: joinComma ts

/-- A realistic flavor token: digit-led, at least two characters, and free of
the regex terminators `,` and `/`. -/
def goodTok (t : List Char) : Bool :=
  match t with
  | [] => false
  | c :: u => c.isDigit && !u.isEmpty && u.all (fun d => d ≠ ',' && d ≠ '/')

theorem consumeRun_no_comma : ∀ l : List Char, ',' ∉ l → consumeRun l = none := by
  intro l
  induction l with
  | nil => intro _; rfl
  | cons c cs ih =>
      intro h
      have hc : c ≠ ',' := by intro hcc; exact h (by simp [hcc])
      simp only [consumeRun, if_neg hc]
      split
      · rfl
      · exact ih (fun hm => h (by simp [hm]))

theorem flavorTail_no_comma (l : List Char) (h : ',' ∉ l) : flavorTail l = none := by
  cases l with
  | nil => rfl
  | cons c cs =>
      simp only [flavorTail]
      split
      · rfl
      · exact consumeRun_no_comma cs (fun hm => h (by simp [hm]))

theorem stripFlavors_no_comma : ∀ l : List Char, ',' ∉ l → stripFlavors l = l := by
  intro l
  induction l with
  | nil => intro _; rw [stripFlavors]
  | cons c cs ih =>
      intro h
      have hcs : ',' ∉ cs := fun hm => h (by simp [hm])
      rw [stripFlavors]
      split
      · rw [flavorTail_no_comma cs hcs]
        rw [ih hcs]
      · rw [ih hcs]

theorem goodTok_no_comma (t : List Char) (ht : goodTok t = true) : ',' ∉ t := by
  cases t with
  | nil => simp [goodTok] at ht
  | cons c u =>
      simp only [goodTok, Bool.and_eq_true, List.all_eq_true] at ht
      obtain ⟨⟨hd, _⟩, hall⟩ := ht
      intro hmem
      rcases List.mem_cons.mp hmem with h | h
      · rw [← h] at hd
        simp [Char.isDigit] at hd
      · have := hall ',' h
        simp at this

theorem consumeRun_clean : ∀ (a r : List Char), (∀ c ∈ a, c ≠ ',' ∧ c ≠ '/') →
    consumeRun (a ++ ',' :: r) = some r := by
  intro a
  induction a with
  | nil => intro r _; simp [consumeRun]
  | cons c cs ih =>
      intro r h
      have hc := h c (by simp)
      simp only [List.cons_append, consumeRun, if_neg hc.1, if_neg hc.2]
      exact ih r (fun d hd => h d (by simp [hd]))

theorem consumeRun_slash : ∀ (a l : List Char), ',' ∉ a → '/' ∈ a →
    consumeRun (a ++ l) = none := by
  intro a
  induction a with
  | nil => intro l _ h; simp at h
  | cons c cs ih =>
      intro l hnc hs
      have hc : c ≠ ',' := fun h => hnc (by simp [h])
      simp only [List.cons_append, consumeRun, if_neg hc]
      by_cases hcs : c = '/'
      · simp [hcs]
      · rw [if_neg hcs]
        have : '/' ∈ cs := by
          rcases List.mem_cons.mp hs with h | h
          · exact absurd h.symm hcs
          · exact h
        exact ih l (fun h => hnc (by simp [h])) this

theorem flavorTail_slash (a l : List Char) (hnc : ',' ∉ a) (hs : '/' ∈ a) :
    flavorTail (a ++ l) = none := by
  cases a with
  | nil => simp at hs
  | cons c cs =>
      simp only [List.cons_append, flavorTail]
      by_cases hcond : c = ',' ∨ c = '/'
      · rw [if_pos hcond]
      · rw [if_neg hcond]
        push_neg at hcond
        have : '/' ∈ cs := by
          rcases List.mem_cons.mp hs with h | h
          · exact absurd h.symm hcond.2
          · exact h
        exact consumeRun_slash cs l (fun h => hnc (by simp [h])) this

theorem stripFlavors_tok_comma (t r : List Char) (ht : goodTok t = true) :
    stripFlavors (t ++ ',' :: r) = stripFlavors r := by
  cases t with
  | nil => simp [goodTok] at ht
  | cons c u =>
      simp only [goodTok, Bool.and_eq_true, List.all_eq_true] at ht
      obtain ⟨⟨hd, hne⟩, hall⟩ := ht
      cases u with
      | nil => simp at hne
      | cons x xs =>
          have hx : x ≠ ',' ∧ x ≠ '/' := by
            have := hall x (by simp)
            simpa using this
          have htail : flavorTail ((x :: xs) ++ ',' :: r) = some r := by
            simp only [List.cons_append, flavorTail, if_neg (by tauto : ¬(x = ',' ∨ x = '/'))]
            exact consumeRun_clean xs r (fun d hd' => by
              have := hall d (by simp [hd'])
              simpa using this)
          rw [List.cons_append, stripFlavors, if_pos hd]
          rw [htail]

theorem stripFlavors_prefix_slash : ∀ (p l : List Char), ',' ∉ p →
    p.getLast? = some '/' → stripFlavors (p ++ l) = p ++ stripFlavors l := by
  intro p
  induction p with
  | nil => intro l _ h; simp at h
  | cons c p ih =>
      intro l hnc hlast
      have hc : c ≠ ',' := fun h => hnc (by simp [h])
      cases p with
      | nil =>
          simp only [List.getLast?_singleton, Option.some.injEq] at hlast
          subst hlast
          rw [List.cons_append, stripFlavors]
          rw [if_neg (by decide : ¬ ('/' : Char).isDigit = true)]
          rfl
      | cons d p' =>
          have hlast' : (d :: p').getLast? = some '/' := by
            rwa [List.getLast?_cons_cons] at hlast
          have hnc' : ',' ∉ d :: p' := fun h => hnc (by simp [h])
          have hslash : '/' ∈ d :: p' := by
            have h1 := List.getLast?_eq_getLast (d :: p') (by simp)
            rw [h1] at hlast'
            have h2 := Option.some.inj hlast'
            have h3 := List.getLast_mem (l := d :: p') (by simp)
            rwa [h2] at h3
          have ihl := ih l hnc' hlast'
          rw [List.cons_append, stripFlavors]
          split
          · rw [flavorTail_slash (d :: p') l hnc' hslash]
            rw [ihl]
            rfl
          · rw [ihl]
            rfl

/-- C7: in download mode the secondary resolver rewrites the selected
manifest URL with the flavor-stripping substitution, and for a URL made of a
comma-free segment ending in `/`, a comma-joined list of flavor tokens and a
comma-free tail, the substitution keeps only the final token. -/
theorem download_flavor_strip (p sfx lastTok : List Char) (ts : List (List Char))
    (hp : p = [] ∨ (',' ∉ p ∧ p.getLast? = some '/'))
    (hsfx : ',' ∉ sfx)
    (hlast : ts.getLast? = some lastTok)
    (hgood : ∀ t ∈ ts, goodTok t = true) :
    stripFlavors (p ++ (joinComma ts ++ sfx)) = p ++ (lastTok ++ sfx) ∧
    (∀ u : String,
      get_hd_mpd_stream_manifest
          [JVal.obj [("deliveryProfileId", JVal.num 14441), ("url", JVal.str u)]]
          Mode.download = .ok (.str (String.mk (stripFlavors u.data)))) := by
  constructor
  · have main : ∀ (l : List (List Char)) (lt : List Char), l.getLast? = some lt →
        (∀ t ∈ l, goodTok t = true) →
        stripFlavors (joinComma l ++ sfx) = lt ++ sfx := by
      intro l
      induction l with
      | nil => intro lt h; simp at h
      | cons t l2 ih =>
          intro lt h hg
          cases l2 with
          | nil =>
              rw [List.getLast?_singleton] at h
              have ht : t = lt := Option.some.inj h
              subst ht
              have hnc : ',' ∉ t ++ sfx := by
                intro hm
                rcases List.mem_append.mp hm with h1 | h1
                · exact goodTok_no_comma t (hg t (by simp)) h1
                · exact hsfx h1
              show stripFlavors (t ++ sfx) = t ++ sfx
              exact stripFlavors_no_comma _ hnc
          | cons t2 l3 =>
              have hjc : joinComma (t :: t2 :: l3) = t ++ ',' :: joinComma (t2 :: l3) := rfl
              rw [hjc, List.append_assoc, List.cons_append]
              rw [stripFlavors_tok_comma t _ (hg t (by simp))]
              rw [List.getLast?_cons_cons] at h
              exact ih lt h (fun x hx => hg x (by simp [hx]))
    rcases hp with hp | hp
    · subst hp
      simpa using main ts lastTok hlast hgood
    · rw [stripFlavors_prefix_slash p _ hp.1 hp.2]
      rw [main ts lastTok hlast hgood]
  · intro u
    rfl

/-- Witness: the spec's concrete download-mode URL rewrite. -/
theorem download_flavor_strip_witness :
    stripFlavors (".../1005,1006,1007/manifest.mpd".data) = ".../1007/manifest.mpd".data ∧
    get_hd_mpd_stream_manifest
        [JVal.obj [("deliveryProfileId", JVal.num 14441),
                   ("url", JVal.str ".../1005,1006,1007/manifest.mpd")]]
        Mode.download = .ok (JVal.str (String.mk (stripFlavors ".../1005,1006,1007/manifest.mpd".data))) := by
  have h := download_flavor_strip (".../".data) ("/manifest.mpd".data)
      ['1', '0', '0', '7']
      [['1', '0', '0', '5'], ['1', '0', '0', '6'], ['1', '0', '0', '7']]
      (Or.inr (by decide)) (by decide) (by decide) (by decide)
  constructor
  · have hin : ".../1005,1006,1007/manifest.mpd".data =
        ".../".data ++ (joinComma [['1', '0', '0', '5'], ['1', '0', '0', '6'], ['1', '0', '0', '7']]
          ++ "/manifest.mpd".data) := by decide
    have hout : ".../".data ++ (['1', '0', '0', '7'] ++ "/manifest.mpd".data) =
        ".../1007/manifest.mpd".data := by decide
    rw [hin, h.1, hout]
  · exact h.2 ".../1005,1006,1007/manifest.mpd"

/-! ## router.py: get_extended_content -/

/-- `router.get_extended_content`, run against a server that holds
`S` records, reports `count = S` in every response's metadata, and returns
`min(requested, S - offset)` records for a page query (never fewer than
requested unless exhausted).  The loop state is `(total, offset)` exactly as
in the source (`total` is an `Int`: the Python update
`total = min(total, count) - requested` can go negative).  The result is the
pair (records accumulated in `ctx`, number of page fetches performed). -/
def get_extended_content (S : Nat) (total offset : Int) : Nat × Nat :=
  if 0 < total then
    ((min (min total 100) (max ((S : Int) - offset) 0)).toNat
        + (get_extended_content S (min total (S : Int) - min total 100) (offset + min total 100)).1,
      1 + (get_extended_content S (min total (S : Int) - min total 100) (offset + min total 100)).2)
  else (0, 0)
termination_by total.toNat
decreasing_by
  all_goals omega

theorem get_extended_content_records (S : Nat) :
    ∀ (n : Nat) (total offset : Int), total.toNat ≤ n → 0 ≤ offset →
      (get_extended_content S total offset).1 = (min total ((S : Int) - offset)).toNat := by
  intro n
  induction n with
  | zero =>
      intro total offset hn h0
      rw [get_extended_content.eq_def, if_neg (by omega)]
      simp only
      omega
  | succ n ih =>
      intro total offset hn h0
      by_cases hpos : 0 < total
      · rw [get_extended_content.eq_def, if_pos hpos]
        simp only
        rw [ih (min total (S : Int) - min total 100) (offset + min total 100)
             (by omega) (by omega)]
        omega
      · rw [get_extended_content.eq_def, if_neg hpos]
        simp only
        omega

/-- The claim's "zero page fetches when the server is empty" is false: with a
positive request and an empty server the loop still issues exactly one page
fetch (it can only learn the server's total from that response). -/
theorem get_extended_content_fetch_counterexample :
    (get_extended_content 0 5 0).2 = 1 ∧ (get_extended_content 0 5 0).2 ≠ 0 := by
  have h1 : (get_extended_content 0 5 0).2 = 1 := by
    rw [get_extended_content.eq_def]
    norm_num
    rw [get_extended_content.eq_def]
    norm_num
  exact ⟨h1, by rw [h1]; decide⟩

/-- C3 (amended): the aggregator terminates and accumulates exactly
`min(requested_total, server_total)` records; a zero request issues no page
fetch; a positive request against an empty server issues exactly one page
fetch (returning no records). -/
theorem pagination_aggregator (R S : Nat) :
    (get_extended_content S (R : Int) 0).1 = min R S ∧
    (R = 0 → (get_extended_content S (R : Int) 0).2 = 0) ∧
    (0 < R → (get_extended_content 0 (R : Int) 0).2 = 1) := by
  refine ⟨?_, ?_, ?_⟩
  · have h := get_extended_content_records S R.succ (R : Int) 0 (by omega) (by omega)
    rw [h]
    omega
  · intro hR
    subst hR
    rw [get_extended_content.eq_def, if_neg (by omega)]
  · intro hR
    rw [get_extended_content.eq_def, if_pos (by omega)]
    simp only
    rw [get_extended_content.eq_def, if_neg (by omega)]
    rfl

/-- Witness for the aggregator theorem: 250 requested of 120 available
yields 120 records; a zero request fetches nothing; five requested of an
empty server is exactly one (empty) page fetch. -/
theorem pagination_aggregator_witness :
    (get_extended_content 120 (250 : Nat) 0).1 = min 250 120 ∧
    (get_extended_content 7 (0 : Nat) 0).2 = 0 ∧
    (get_extended_content 0 (5 : Nat) 0).2 = 1 := by
  exact ⟨(pagination_aggregator 250 120).1,
         (pagination_aggregator 0 7).2.1 rfl,
         (pagination_aggregator 5 0).2.2 (by omega)⟩

/-! ## yle.py: sort_alphabetical_categories -/

/-- One alphabetical bucket record: `name` plus `api_data["count"]`, with
`offset` standing for the `api_data["offset"]` field the sorter assigns. -/
structure AlphaCat where
  name : String
  count : Nat
  offset : Nat
deriving DecidableEq, Repr

/-- The fixed collation table from `sort_alphabetical_categories`
(listed order `A-Z,À,Ä,Å,Ö,Þ,Ž` reordered to the stored order). -/
def alphabet : List String :=
  ["0-9", "A", "À", "B", "C", "D", "E", "F", "G", "H", "I", "J", "K", "L", "M",
   "N", "O", "P", "Q", "R", "S", "T", "Þ", "U", "V", "W", "X", "Y", "Z", "Ž",
   "Å", "Ä", "Ö"]

/-- `alphabet.index(name)`; the fallback value is unreachable under the
table-membership guard. -/
def alphaIdx (n : String) : Nat :=
  (alphabet.findIdx? (fun a => a = n)).getD alphabet.length

/-- Stable insertion by collation index: a later record is placed after
records with an equal key, as in Python's stable `sorted`. -/
def insertCat (c : AlphaCat) : List AlphaCat → List AlphaCat
  | [] => [c]
  | d :: ds =>
      if alphaIdx c.name < alphaIdx d.name then c :: d :: ds
      else d :: insertCat c ds

/-- `sorted(categories, key=lambda entry: alphabet.index(entry["name"]))`. -/
def sortCats (l : List AlphaCat) : List AlphaCat :=
  l.foldl (fun acc c => insertCat c acc) []

/-- The offset-assignment loop of `sort_alphabetical_categories`. -/
def assignOffsets : Nat → List AlphaCat → List AlphaCat
  | _, [] => []
  | off, c :: cs => { c with offset := off } :: assignOffsets (off + c.count) cs

/-- `yle.sort_alphabetical_categories`: sort the buckets by the collation
table and assign each the cumulative count of its predecessors; a name
missing from the table is Python's `ValueError` from `list.index`. -/
def sort_alphabetical_categories (categories : List AlphaCat) : Except PyErr (List AlphaCat) :=
  if categories.all (fun c => alphabet.contains c.name) then
    .ok (assignOffsets 0 (sortCats categories))
  else .error .valueError

theorem mem_insertCat (c x : AlphaCat) :
    ∀ l : List AlphaCat, x ∈ insertCat c l → x = c ∨ x ∈ l := by
  intro l
  induction l with
  | nil => intro h; simpa [insertCat] using h
  | cons d ds ih =>
      intro h
      simp only [insertCat] at h
      split at h
      · rcases List.mem_cons.mp h with h1 | h1
        · exact Or.inl h1
        · exact Or.inr h1
      · rcases List.mem_cons.mp h with h1 | h1
        · exact Or.inr (by simp [h1])
        · rcases ih h1 with h2 | h2
          · exact Or.inl h2
          · exact Or.inr (by simp [h2])

theorem insertCat_pairwise (c : AlphaCat) :
    ∀ l : List AlphaCat,
      l.Pairwise (fun a b => alphaIdx a.name ≤ alphaIdx b.name) →
      (insertCat c l).Pairwise (fun a b => alphaIdx a.name ≤ alphaIdx b.name) := by
  intro l
  induction l with
  | nil => intro _; simp [insertCat]
  | cons d ds ih =>
      intro hp
      rcases List.pairwise_cons.mp hp with ⟨hd, htl⟩
      simp only [insertCat]
      split
      · refine List.pairwise_cons.mpr ⟨?_, hp⟩
        intro x hx
        rcases List.mem_cons.mp hx with h1 | h1
        · subst h1; omega
        · have := hd x h1; omega
      · refine List.pairwise_cons.mpr ⟨?_, ih htl⟩
        intro x hx
        rcases mem_insertCat c x ds hx with h1 | h1
        · subst h1; omega
        · exact hd x h1

theorem sortCats_pairwise (l : List AlphaCat) :
    (sortCats l).Pairwise (fun a b => alphaIdx a.name ≤ alphaIdx b.name) := by
  have main : ∀ (l acc : List AlphaCat),
      acc.Pairwise (fun a b => alphaIdx a.name ≤ alphaIdx b.name) →
      (l.foldl (fun a c => insertCat c a) acc).Pairwise
        (fun a b => alphaIdx a.name ≤ alphaIdx b.name) := by
    intro l
    induction l with
    | nil => intro acc h; simpa using h
    | cons c cs ih =>
        intro acc h
        exact ih (insertCat c acc) (insertCat_pairwise c acc h)
  exact main l [] (by simp)

theorem assignOffsets_map_name : ∀ (l : List AlphaCat) (b : Nat),
    (assignOffsets b l).map (fun c => c.name) = l.map (fun c => c.name) := by
  intro l
  induction l with
  | nil => intro b; rfl
  | cons c cs ih => intro b; simp [assignOffsets, ih]

theorem assignOffsets_map_count : ∀ (l : List AlphaCat) (b : Nat),
    (assignOffsets b l).map AlphaCat.count = l.map AlphaCat.count := by
  intro l
  induction l with
  | nil => intro b; rfl
  | cons c cs ih => intro b; simp [assignOffsets, ih]

theorem assignOffsets_get : ∀ (l : List AlphaCat) (b i : Nat)
    (hi : i < (assignOffsets b l).length),
    ((assignOffsets b l).get ⟨i, hi⟩).offset = b + ((l.take i).map AlphaCat.count).sum := by
  intro l
  induction l with
  | nil => intro b i hi; simp [assignOffsets] at hi
  | cons c cs ih =>
      intro b i hi
      cases i with
      | zero => simp [assignOffsets]
      | succ j =>
          simp only [assignOffsets, List.length_cons, List.get_cons_succ] at hi ⊢
          rw [ih (b + c.count) j]
          simp only [List.take_succ_cons, List.map_cons, List.sum_cons]
          omega

/-- C6: the sequencer reorders buckets by the collation table and gives each
record the cumulative count of its predecessors; on the spec's example
`B:3, A:2, 0-9:1` the output order is `0-9, A, B` with offsets `0, 1, 3`. -/
theorem alphabetical_sequencer :
    sort_alphabetical_categories [⟨"B", 3, 0⟩, ⟨"A", 2, 0⟩, ⟨"0-9", 1, 0⟩]
      = .ok [⟨"0-9", 1, 0⟩, ⟨"A", 2, 1⟩, ⟨"B", 3, 3⟩] ∧
    (∀ (cats out : List AlphaCat), sort_alphabetical_categories cats = .ok out →
      out.Pairwise (fun a b => alphaIdx a.name ≤ alphaIdx b.name) ∧
      ∀ (i : Nat) (hi : i < out.length),
        (out.get ⟨i, hi⟩).offset = ((out.take i).map AlphaCat.count).sum) := by
  constructor
  · rfl
  · intro cats out h
    simp only [sort_alphabetical_categories] at h
    split at h
    · injection h with h
      subst h
      constructor
      · have hp := sortCats_pairwise cats
        have hmap := assignOffsets_map_name (sortCats cats) 0
        have h1 : (((assignOffsets 0 (sortCats cats)).map (fun c => c.name)).Pairwise
            (fun a b => alphaIdx a ≤ alphaIdx b)) := by
          rw [hmap]
          exact (List.pairwise_map).mpr hp
        have h2 := List.pairwise_map.mp h1
        exact h2
      · intro i hi
        rw [assignOffsets_get]
        have hc : ((assignOffsets 0 (sortCats cats)).take i).map AlphaCat.count
            = ((sortCats cats).take i).map AlphaCat.count := by
          rw [List.map_take, List.map_take, assignOffsets_map_count]
        rw [hc]
        omega
    · exact absurd h (by simp)

/-- Witness: sortedness and the cumulative-offset property at the concrete
three-bucket output of the sequencer. -/
theorem alphabetical_sequencer_witness :
    List.Pairwise (fun a b => alphaIdx a.name ≤ alphaIdx b.name)
        [(⟨"0-9", 1, 0⟩ : AlphaCat), ⟨"A", 2, 1⟩, ⟨"B", 3, 3⟩] ∧
    (([(⟨"0-9", 1, 0⟩ : AlphaCat), ⟨"A", 2, 1⟩, ⟨"B", 3, 3⟩].get ⟨2, by decide⟩).offset
        = (([(⟨"0-9", 1, 0⟩ : AlphaCat), ⟨"A", 2, 1⟩, ⟨"B", 3, 3⟩].take 2).map
            AlphaCat.count).sum) := by
  have h := (alphabetical_sequencer).2 [⟨"B", 3, 0⟩, ⟨"A", 2, 0⟩, ⟨"0-9", 1, 0⟩]
      [⟨"0-9", 1, 0⟩, ⟨"A", 2, 1⟩, ⟨"B", 3, 3⟩] (alphabetical_sequencer).1
  exact ⟨h.1, h.2 2 (by decide)⟩

/-! ## misc.py: extract_suffix; yle.py: extract_token -/

/-- Index search underlying Python `string.find(word)`. -/
def strFindAux (word : List Char) : List Char → Nat → Option Nat
  | [], i => if word.isPrefixOf [] then some i else none
  | c :: t, i => if word.isPrefixOf (c :: t) then some i else strFindAux word t (i + 1)

/-- Python `string.find(word)`: first index of the occurrence, else `-1`. -/
def pyFind (word l : List Char) : Int :=
  match strFindAux word l 0 with
  | some i => (i : Int)
  | none => -1

/-- Python slice `s[start:]` with an `Int` start (negative counts from the
end, clipped at zero). -/
def pySliceFrom (l : List Char) (start : Int) : List Char :=
  if start < 0 then l.drop ((l.length : Int) + start).toNat else l.drop start.toNat

/-- `misc.extract_suffix`: `start = string.find(word) + len(word)` and then
`string[start:]`; an absent `word` gives `start = len(word) - 1`. -/
def extract_suffix (word string : List Char) : List Char :=
  pySliceFrom string (pyFind word string + (word.length : Int))

/-- The marker `"token="` used by `yle.extract_token`. -/
def tokenMarker : List Char := ['t', 'o', 'k', 'e', 'n', '=']

/-- `yle.extract_token`. -/
def extract_token (url : List Char) : List Char := extract_suffix tokenMarker url

theorem strFindAux_none (word : List Char) (hw : word ≠ []) :
    ∀ (l : List Char) (i : Nat), (∀ a b : List Char, l ≠ a ++ (word ++ b)) →
      strFindAux word l i = none := by
  intro l
  induction l with
  | nil =>
      intro i _
      cases word with
      | nil => exact absurd rfl hw
      | cons c w => rfl
  | cons c t ih =>
      intro i h
      have hpre : word.isPrefixOf (c :: t) = false := by
        cases hps : word.isPrefixOf (c :: t) with
        | false => rfl
        | true =>
            exfalso
            obtain ⟨b, hb⟩ := List.isPrefixOf_iff_prefix.mp hps
            exact h [] b (by simp [hb])
      simp only [strFindAux, hpre]
      rw [if_neg (by simp)]
      exact ih (i + 1) (fun a b hab => h (c :: a) b (by simp [hab]))

theorem strFindAux_first (word : List Char) (hw : word ≠ []) :
    ∀ (pre b : List Char) (i : Nat),
      (∀ a' b' : List Char, pre ++ (word ++ b) = a' ++ (word ++ b') →
        pre.length ≤ a'.length) →
      strFindAux word (pre ++ (word ++ b)) i = some (i + pre.length) := by
  intro pre
  induction pre with
  | nil =>
      intro b i _
      have hp : word.isPrefixOf (word ++ b) = true :=
        List.isPrefixOf_iff_prefix.mpr ⟨b, rfl⟩
      rw [List.nil_append]
      cases word with
      | nil => exact absurd rfl hw
      | cons wc wt =>
          rw [List.cons_append]
          rw [List.cons_append] at hp
          simp only [strFindAux, hp]
          simp
  | cons c pre ih =>
      intro b i hmin
      have hpre : word.isPrefixOf (c :: (pre ++ (word ++ b))) = false := by
        cases hps : word.isPrefixOf (c :: (pre ++ (word ++ b))) with
        | false => rfl
        | true =>
            exfalso
            obtain ⟨b', hb⟩ := List.isPrefixOf_iff_prefix.mp hps
            have := hmin [] b' (by simp [hb])
            simp at this
      have hstep : strFindAux word (pre ++ (word ++ b)) (i + 1) = some (i + 1 + pre.length) :=
        ih b (i + 1) (fun a' b' hab => by
          have := hmin (c :: a') b' (by simp [hab])
          simpa using this)
      simp only [List.cons_append, strFindAux, List.append_eq]
      rw [if_neg (by simp only [hpre]; simp)]
      rw [hstep]
      congr 1
      simp only [List.length_cons]
      omega

/-- C9: when the `token=` marker occurs in the URL, the extractor returns the
suffix after the first occurrence verbatim; when it is absent it does not
raise and returns the input with its first `len("token=") - 1 = 5`
characters removed. -/
theorem token_extractor (url : List Char) :
    (∀ a b : List Char, url = a ++ (tokenMarker ++ b) →
      (∀ a' b' : List Char, url = a' ++ (tokenMarker ++ b') → a.length ≤ a'.length) →
      extract_token url = b) ∧
    ((∀ a b : List Char, url ≠ a ++ (tokenMarker ++ b)) →
      extract_token url = url.drop 5) := by
  have hlen : ((tokenMarker.length : Nat) : Int) = 6 := rfl
  constructor
  · intro a b hdec hmin
    subst hdec
    have hfind := strFindAux_first tokenMarker (by decide) a b 0 hmin
    simp only [extract_token, extract_suffix, pyFind, hfind, hlen]
    simp only [pySliceFrom]
    rw [if_neg (by omega)]
    have htn : ((((0 + a.length : Nat) : Int) + 6).toNat) = a.length + 6 := by omega
    rw [htn]
    rw [← List.drop_drop]
    rw [List.drop_left]
    rfl
  · intro h
    have hfind := strFindAux_none tokenMarker (by decide) url 0 h
    simp only [extract_token, extract_suffix, pyFind, hfind, hlen]
    simp only [pySliceFrom]
    rw [if_neg (by omega)]
    rw [show ((-1 + 6 : Int)).toNat = 5 from rfl]

/-- Witness: marker at the head yields the verbatim token; a marker-free
input yields its (here empty) suffix after dropping five characters. -/
theorem token_extractor_witness :
    extract_token ("token=abc".data) = "abc".data ∧
    extract_token ("xyz".data) = "xyz".data.drop 5 := by
  constructor
  · have h := (token_extractor ("token=abc".data)).1 [] ("abc".data)
      (by decide) (fun a' b' _ => Nat.zero_le _)
    simpa using h
  · exact (token_extractor ("xyz".data)).2 (fun a b hab => by
      have hl := congrArg List.length hab
      simp [tokenMarker] at hl
      omega)

/-! ## misc.py: get_duration_seconds -/

/-- Value of a decimal digit string (most significant digit first). -/
def digitsVal (ds : List Char) : Nat :=
  ds.foldl (fun a c => a * 10 + (c.toNat - 48)) 0

/-- Greedy parse of `[0-9]+([,.][0-9]+)?`: the exact rational value, a flag
recording whether the fraction separator was a comma (Python's later
`float()` call raises `ValueError` on those), and the remaining input;
`none` when no leading digit is present. -/
def parseNumber (l : List Char) : Option (ℚ × Bool × List Char) :=
  let ds := l.takeWhile Char.isDigit
  let r1 := l.dropWhile Char.isDigit
  if ds.isEmpty then none
  else
    match r1 with
    | c :: r2 =>
        if c = '.' ∨ c = ',' then
          let fs := r2.takeWhile Char.isDigit
          let r3 := r2.dropWhile Char.isDigit
          if fs.isEmpty then some ((digitsVal ds : ℚ), false, r1)
          else some ((digitsVal ds : ℚ) + (digitsVal fs : ℚ) / (10 : ℚ) ^ fs.length, c = ',', r3)
        else some ((digitsVal ds : ℚ), false, r1)
    | [] => some ((digitsVal ds : ℚ), false, [])

/-- One optional component `(digits([.,]digits)?)L` of the period regex: on a
letter match the component is captured, otherwise nothing is consumed
(the regex engine's backtracking can never do better, since the letter is
not a digit or separator). -/
def parseComp (letter : Char) (l : List Char) : Option (ℚ × Bool) × List Char :=
  match parseNumber l with
  | some (v, cm, r) =>
      match r with
      | c :: r2 => if c = letter then (some (v, cm), r2) else (none, l)
      | [] => (none, l)
  | none => (none, l)

/-- Word-character test for the lookahead `P(?!\b)`. -/
def isWordChar (c : Char) : Bool := c.isAlphanum || c = '_'

/-- The anchored ISO-8601 period regex of `get_duration_seconds`, compiled
into a deterministic parser.  Returns the captured hours/minutes/seconds
groups; the sign and the years/months/weeks/days groups are consumed but
their values discarded, exactly as in the source. -/
def parseISO8601 (l : List Char) :
    Option (Option (ℚ × Bool) × Option (ℚ × Bool) × Option (ℚ × Bool)) :=
  let l1 := match l with
    | c :: r => if c = '+' ∨ c = '-' then r else l
    | [] => l
  match l1 with
  | 'P' :: r =>
      match r with
      | c :: _ =>
          if isWordChar c then
            let (_, r1) := parseComp 'Y' r
            let (_, r2) := parseComp 'M' r1
            let (_, r3) := parseComp 'W' r2
            let (_, r4) := parseComp 'D' r3
            match r4 with
            | 'T' :: r5 =>
                let (h, r6) := parseComp 'H' r5
                let (m, r7) := parseComp 'M' r6
                let (s, r8) := parseComp 'S' r7
                if r8.isEmpty then some (h, m, s) else none
            | _ => if r4.isEmpty then some (none, none, none) else none
          else none
      | [] => none
  | _ => none

/-- Exact-rational stand-in for Python `str(float(..))`.  It provably
agrees with CPython only on integral values `0 ≤ n < 2^53`, where binary
doubles are exact and repr prints the fixed form `"<n>.0"`.  Outside that
range CPython diverges from any exact rendering (doubles round fractional
results, e.g. `str(1.1*3600)` is `"3960.0000000000005"`; magnitudes beyond
the double range print `"inf"`; magnitudes at or above `1e16` switch to
exponent notation), so the theorems below quantify only over the agreeing
range. -/
def pyFloatStr (q : ℚ) : String :=
  if q.den = 1 then toString q.num ++ ".0" else toString q

/-- `misc.get_duration_seconds`: regex match (no match: the
`AttributeError` from `None.groupdict()` is caught and `""` returned), then
`float(h)*3600 + float(m)*60 + float(s)`; a comma fraction in a captured
time group makes `float()` raise `ValueError` (outside the `try`, so it
escapes).  The arithmetic is modelled on exact rationals, which coincides
with Python's IEEE-754 doubles only for integral components with a total
below `2^53`; the positive theorems below carry that bound, and the error
paths (no match, comma fraction) are modelled exactly. -/
def get_duration_seconds (time_stamp : String) : Except PyErr String :=
  match parseISO8601 time_stamp.data with
  | none => .ok ""
  | some (h, m, s) =>
      if (h.any (fun p => p.2)) || (m.any (fun p => p.2)) || (s.any (fun p => p.2)) then
        .error .valueError
      else
        .ok (pyFloatStr (((h.map (fun p => p.1)).getD 0) * 3600
            + ((m.map (fun p => p.1)).getD 0) * 60
            + ((s.map (fun p => p.1)).getD 0)))

theorem takeWhile_append_all {p : Char → Bool} :
    ∀ (ds rest : List Char), (∀ c ∈ ds, p c = true) →
      (∀ r rs, rest = r :: rs → p r = false) →
      (ds ++ rest).takeWhile p = ds ∧ (ds ++ rest).dropWhile p = rest := by
  intro ds
  induction ds with
  | nil =>
      intro rest _ hrest
      cases rest with
      | nil => exact ⟨rfl, rfl⟩
      | cons r rs =>
          have := hrest r rs rfl
          simp [List.takeWhile, List.dropWhile, this]
  | cons d ds ih =>
      intro rest hall hrest
      have hd := hall d (by simp)
      have := ih rest (fun c hc => hall c (by simp [hc])) hrest
      simp [List.takeWhile, List.dropWhile, hd, this.1, this.2]

theorem parseNumber_append (ds rest : List Char) (hne : ds ≠ [])
    (hdig : ∀ c ∈ ds, c.isDigit = true)
    (hhead : ∀ r rs, rest = r :: rs → r.isDigit = false ∧ r ≠ '.' ∧ r ≠ ',') :
    parseNumber (ds ++ rest) = some ((digitsVal ds : ℚ), false, rest) := by
  have htd := takeWhile_append_all ds rest hdig (fun r rs h => (hhead r rs h).1)
  obtain ⟨d, ds', rfl⟩ := List.exists_cons_of_ne_nil hne
  simp only [parseNumber, htd.1, htd.2]
  rw [if_neg (by simp)]
  cases rest with
  | nil => rfl
  | cons r rs =>
      have hr := hhead r rs rfl
      simp [hr.2.1, hr.2.2]

theorem parseComp_nil (L : Char) : parseComp L [] = (none, []) := rfl

theorem parseComp_letter (L c : Char) (r : List Char) (hc : c.isDigit = false) :
    parseComp L (c :: r) = (none, c :: r) := by
  have hpn : parseNumber (c :: r) = none := by
    simp only [parseNumber, List.takeWhile]
    rw [hc]
    simp
  simp only [parseComp, hpn]

theorem parseComp_hit (L : Char) (ds rest : List Char) (hne : ds ≠ [])
    (hdig : ∀ c ∈ ds, c.isDigit = true)
    (hL : L.isDigit = false ∧ L ≠ '.' ∧ L ≠ ',') :
    parseComp L (ds ++ (L :: rest)) = (some ((digitsVal ds : ℚ), false), rest) := by
  have hpn := parseNumber_append ds (L :: rest) hne hdig
    (fun r rs h => by cases h; exact hL)
  simp only [parseComp, hpn]
  simp

theorem parseComp_skip_digits (L L' : Char) (ds rest : List Char) (hne : ds ≠ [])
    (hdig : ∀ c ∈ ds, c.isDigit = true)
    (hL' : L'.isDigit = false ∧ L' ≠ '.' ∧ L' ≠ ',') (hdiff : L' ≠ L) :
    parseComp L (ds ++ (L' :: rest)) = (none, ds ++ (L' :: rest)) := by
  have hpn := parseNumber_append ds (L' :: rest) hne hdig
    (fun r rs h => by cases h; exact hL')
  simp only [parseComp, hpn]
  rw [if_neg hdiff]

/-- Canonical encoding of one optional period component. -/
def encComp (o : Option (List Char)) (letter : Char) : List Char :=
  match o with
  | none => []
  | some ds => ds ++ [letter]

/-- Well-formed (nonempty, all-digit) optional component. -/
def compOk (o : Option (List Char)) : Prop :=
  ∀ ds, o = some ds → ds ≠ [] ∧ ∀ c ∈ ds, c.isDigit = true

/-- Numeric value of an optional component. -/
def compVal (o : Option (List Char)) : Nat :=
  match o with
  | none => 0
  | some ds => digitsVal ds

theorem parseComp_enc (L : Char) (o : Option (List Char)) (rest : List Char)
    (hok : compOk o) (hL : L.isDigit = false ∧ L ≠ '.' ∧ L ≠ ',')
    (hskip : parseComp L rest = (none, rest)) :
    parseComp L (encComp o L ++ rest)
      = (o.map (fun ds => ((digitsVal ds : ℚ), false)), rest) := by
  cases o with
  | none => simpa [encComp] using hskip
  | some ds =>
      obtain ⟨hne, hdig⟩ := hok ds rfl
      have h := parseComp_hit L ds rest hne hdig hL
      simp only [encComp, List.append_assoc, List.singleton_append, Option.map_some]
      exact h

theorem skip_enc (L L' : Char) (o : Option (List Char)) (rest : List Char)
    (hok : compOk o) (hL' : L'.isDigit = false ∧ L' ≠ '.' ∧ L' ≠ ',')
    (hdiff : L' ≠ L)
    (hrest : parseComp L rest = (none, rest)) :
    parseComp L (encComp o L' ++ rest) = (none, encComp o L' ++ rest) := by
  cases o with
  | none => simpa [encComp] using hrest
  | some ds =>
      obtain ⟨hne, hdig⟩ := hok ds rfl
      have h := parseComp_skip_digits L L' ds rest hne hdig hL' hdiff
      simp only [encComp, List.append_assoc, List.singleton_append]
      exact h

theorem parseISO_hms (dh dm dsec : Option (List Char))
    (okh : compOk dh) (okm : compOk dm) (oks : compOk dsec) :
    parseISO8601 ('P' :: 'T' :: (encComp dh 'H' ++ (encComp dm 'M' ++ encComp dsec 'S')))
      = some (dh.map (fun x => ((digitsVal x : ℚ), false)),
          dm.map (fun x => ((digitsVal x : ℚ), false)),
          dsec.map (fun x => ((digitsVal x : ℚ), false))) := by
  have hS : parseComp 'S' (encComp dsec 'S' ++ []) =
      (dsec.map (fun x => ((digitsVal x : ℚ), false)), []) :=
    parseComp_enc 'S' dsec [] oks (by decide) rfl
  rw [List.append_nil] at hS
  have hskipMS : parseComp 'M' (encComp dsec 'S' ++ []) = (none, encComp dsec 'S' ++ []) :=
    skip_enc 'M' 'S' dsec [] oks (by decide) (by decide) rfl
  rw [List.append_nil] at hskipMS
  have hM : parseComp 'M' (encComp dm 'M' ++ encComp dsec 'S') =
      (dm.map (fun x => ((digitsVal x : ℚ), false)), encComp dsec 'S') :=
    parseComp_enc 'M' dm _ okm (by decide) hskipMS
  have hskipHS : parseComp 'H' (encComp dsec 'S' ++ []) = (none, encComp dsec 'S' ++ []) :=
    skip_enc 'H' 'S' dsec [] oks (by decide) (by decide) rfl
  rw [List.append_nil] at hskipHS
  have hskipHM : parseComp 'H' (encComp dm 'M' ++ encComp dsec 'S')
      = (none, encComp dm 'M' ++ encComp dsec 'S') :=
    skip_enc 'H' 'M' dm _ okm (by decide) (by decide) hskipHS
  have hH : parseComp 'H' (encComp dh 'H' ++ (encComp dm 'M' ++ encComp dsec 'S')) =
      (dh.map (fun x => ((digitsVal x : ℚ), false)),
        encComp dm 'M' ++ encComp dsec 'S') :=
    parseComp_enc 'H' dh _ okh (by decide) hskipHM
  have hY : parseComp 'Y' ('T' :: (encComp dh 'H' ++ (encComp dm 'M' ++ encComp dsec 'S')))
      = (none, 'T' :: (encComp dh 'H' ++ (encComp dm 'M' ++ encComp dsec 'S'))) :=
    parseComp_letter 'Y' 'T' _ (by decide)
  have hM0 : parseComp 'M' ('T' :: (encComp dh 'H' ++ (encComp dm 'M' ++ encComp dsec 'S')))
      = (none, 'T' :: (encComp dh 'H' ++ (encComp dm 'M' ++ encComp dsec 'S'))) :=
    parseComp_letter 'M' 'T' _ (by decide)
  have hW : parseComp 'W' ('T' :: (encComp dh 'H' ++ (encComp dm 'M' ++ encComp dsec 'S')))
      = (none, 'T' :: (encComp dh 'H' ++ (encComp dm 'M' ++ encComp dsec 'S'))) :=
    parseComp_letter 'W' 'T' _ (by decide)
  have hD : parseComp 'D' ('T' :: (encComp dh 'H' ++ (encComp dm 'M' ++ encComp dsec 'S')))
      = (none, 'T' :: (encComp dh 'H' ++ (encComp dm 'M' ++ encComp dsec 'S'))) :=
    parseComp_letter 'D' 'T' _ (by decide)
  simp [parseISO8601, hY, hM0, hW, hD, hH, hM, hS]
  decide

theorem parseISO_ymwd (dy dmo dw dd : Option (List Char))
    (oky : compOk dy) (okmo : compOk dmo) (okw : compOk dw) (okd : compOk dd)
    (hone : dy ≠ none ∨ dmo ≠ none ∨ dw ≠ none ∨ dd ≠ none) :
    parseISO8601 ('P' :: (encComp dy 'Y' ++
        (encComp dmo 'M' ++ (encComp dw 'W' ++ encComp dd 'D'))))
      = some (none, none, none) := by
  have hD : parseComp 'D' (encComp dd 'D' ++ []) =
      (dd.map (fun x => ((digitsVal x : ℚ), false)), []) :=
    parseComp_enc 'D' dd [] okd (by decide) rfl
  rw [List.append_nil] at hD
  have hskipWD : parseComp 'W' (encComp dd 'D' ++ []) = (none, encComp dd 'D' ++ []) :=
    skip_enc 'W' 'D' dd [] okd (by decide) (by decide) rfl
  rw [List.append_nil] at hskipWD
  have hW : parseComp 'W' (encComp dw 'W' ++ encComp dd 'D') =
      (dw.map (fun x => ((digitsVal x : ℚ), false)), encComp dd 'D') :=
    parseComp_enc 'W' dw _ okw (by decide) hskipWD
  have hskipMD : parseComp 'M' (encComp dd 'D' ++ []) = (none, encComp dd 'D' ++ []) :=
    skip_enc 'M' 'D' dd [] okd (by decide) (by decide) rfl
  rw [List.append_nil] at hskipMD
  have hskipMW : parseComp 'M' (encComp dw 'W' ++ encComp dd 'D')
      = (none, encComp dw 'W' ++ encComp dd 'D') :=
    skip_enc 'M' 'W' dw _ okw (by decide) (by decide) hskipMD
  have hM : parseComp 'M' (encComp dmo 'M' ++ (encComp dw 'W' ++ encComp dd 'D')) =
      (dmo.map (fun x => ((digitsVal x : ℚ), false)),
        encComp dw 'W' ++ encComp dd 'D') :=
    parseComp_enc 'M' dmo _ okmo (by decide) hskipMW
  have hskipYD : parseComp 'Y' (encComp dd 'D' ++ []) = (none, encComp dd 'D' ++ []) :=
    skip_enc 'Y' 'D' dd [] okd (by decide) (by decide) rfl
  rw [List.append_nil] at hskipYD
  have hskipYW : parseComp 'Y' (encComp dw 'W' ++ encComp dd 'D')
      = (none, encComp dw 'W' ++ encComp dd 'D') :=
    skip_enc 'Y' 'W' dw _ okw (by decide) (by decide) hskipYD
  have hskipYM : parseComp 'Y' (encComp dmo 'M' ++ (encComp dw 'W' ++ encComp dd 'D'))
      = (none, encComp dmo 'M' ++ (encComp dw 'W' ++ encComp dd 'D')) :=
    skip_enc 'Y' 'M' dmo _ okmo (by decide) (by decide) hskipYW
  have hY : parseComp 'Y' (encComp dy 'Y' ++
      (encComp dmo 'M' ++ (encComp dw 'W' ++ encComp dd 'D'))) =
      (dy.map (fun x => ((digitsVal x : ℚ), false)),
        encComp dmo 'M' ++ (encComp dw 'W' ++ encComp dd 'D')) :=
    parseComp_enc 'Y' dy _ oky (by decide) hskipYM
  have hhead : ∃ c rest', encComp dy 'Y' ++
      (encComp dmo 'M' ++ (encComp dw 'W' ++ encComp dd 'D'))
        = c :: rest' ∧ c.isDigit = true := by
    cases dy with
    | some ys =>
        obtain ⟨hne, hdig⟩ := oky ys rfl
        obtain ⟨c, t, rfl⟩ := List.exists_cons_of_ne_nil hne
        refine ⟨c, t ++ ('Y' :: (encComp dmo 'M' ++ (encComp dw 'W' ++ encComp dd 'D'))),
          ?_, hdig c (by simp)⟩
        simp [encComp]
    | none =>
        cases dmo with
        | some ms =>
            obtain ⟨hne, hdig⟩ := okmo ms rfl
            obtain ⟨c, t, rfl⟩ := List.exists_cons_of_ne_nil hne
            refine ⟨c, t ++ ('M' :: (encComp dw 'W' ++ encComp dd 'D')),
              ?_, hdig c (by simp)⟩
            simp [encComp]
        | none =>
            cases dw with
            | some ws =>
                obtain ⟨hne, hdig⟩ := okw ws rfl
                obtain ⟨c, t, rfl⟩ := List.exists_cons_of_ne_nil hne
                refine ⟨c, t ++ ('W' :: encComp dd 'D'), ?_, hdig c (by simp)⟩
                simp [encComp]
            | none =>
                cases dd with
                | some dds =>
                    obtain ⟨hne, hdig⟩ := okd dds rfl
                    obtain ⟨c, t, rfl⟩ := List.exists_cons_of_ne_nil hne
                    refine ⟨c, t ++ ['D'], ?_, hdig c (by simp)⟩
                    simp [encComp]
                | none =>
                    exfalso
                    rcases hone with h | h | h | h <;> exact h rfl
  obtain ⟨c, rest', hch, hcd⟩ := hhead
  have hwc : isWordChar c = true := by
    simp [isWordChar, Char.isAlphanum, hcd]
  rw [hch] at hY ⊢
  simp [parseISO8601, hY, hM, hW, hD, hwc]

theorem pyFloatStr_nat (n : Nat) : pyFloatStr ((n : ℚ)) = toString n ++ ".0" := by
  unfold pyFloatStr
  rw [if_pos (by simp)]
  congr 1

theorem mapped_flag_false (o : Option (List Char)) :
    (o.map (fun x => ((digitsVal x : ℚ), false))).any (fun p => p.2) = false := by
  cases o <;> rfl

theorem mapped_val (o : Option (List Char)) :
    ((o.map (fun x => ((digitsVal x : ℚ), false))).map (fun p => p.1)).getD 0
      = (compVal o : ℚ) := by
  cases o with
  | none => simp [compVal]
  | some ds => simp [compVal]

theorem duration_hms_general (dh dm dsec : Option (List Char))
    (okh : compOk dh) (okm : compOk dm) (oks : compOk dsec) :
    get_duration_seconds (String.mk ('P' :: 'T' ::
        (encComp dh 'H' ++ (encComp dm 'M' ++ encComp dsec 'S'))))
      = .ok (toString (compVal dh * 3600 + compVal dm * 60 + compVal dsec) ++ ".0") := by
  have hp := parseISO_hms dh dm dsec okh okm oks
  simp only [get_duration_seconds, hp]
  simp only [mapped_flag_false, Bool.or_self, Bool.or_false, Bool.false_or]
  rw [if_neg (by simp)]
  simp only [mapped_val]
  have hcast : (compVal dh : ℚ) * 3600 + (compVal dm : ℚ) * 60 + (compVal dsec : ℚ)
      = ((compVal dh * 3600 + compVal dm * 60 + compVal dsec : Nat) : ℚ) := by
    push_cast
    ring
  rw [hcast, pyFloatStr_nat]

theorem duration_ymwd_general (dy dmo dw dd : Option (List Char))
    (oky : compOk dy) (okmo : compOk dmo) (okw : compOk dw) (okd : compOk dd)
    (hone : dy ≠ none ∨ dmo ≠ none ∨ dw ≠ none ∨ dd ≠ none) :
    get_duration_seconds (String.mk ('P' ::
        (encComp dy 'Y' ++ (encComp dmo 'M' ++ (encComp dw 'W' ++ encComp dd 'D')))))
      = .ok "0.0" := by
  have hp := parseISO_ymwd dy dmo dw dd oky okmo okw okd hone
  simp only [get_duration_seconds, hp]
  simp only [Option.any_none, Bool.or_self]
  rw [if_neg (by simp)]
  have hz : ((none : Option (ℚ × Bool)).map (fun p => p.1)).getD 0 * 3600
      + ((none : Option (ℚ × Bool)).map (fun p => p.1)).getD 0 * 60
      + ((none : Option (ℚ × Bool)).map (fun p => p.1)).getD 0 = ((0 : Nat) : ℚ) := by
    simp
  rw [hz, pyFloatStr_nat]
  rw [show toString (0 : Nat) ++ ".0" = "0.0" from by decide]

/-- The claim quantified over every valid H/M/S duration fails on the code:
`"PT1,5H"` (comma is an ISO-8601 fraction separator and the regex accepts
it; its exact decimal total is 5400.0 seconds) does not return a value at
all -- `float("1,5")` raises `ValueError` outside the `try` block. -/
theorem duration_comma_fraction_counterexample :
    get_duration_seconds "PT1,5H" = .error .valueError ∧
    get_duration_seconds "PT1,5H" ≠ .ok "5400.0" := by
  obtain ⟨v, hp⟩ : ∃ v : ℚ, parseISO8601 ("PT1,5H".data)
      = some (some (v, true), none, none) := ⟨_, rfl⟩
  constructor
  · simp [get_duration_seconds, hp]
  · simp [get_duration_seconds, hp]

/-- C5 (amended): for periods whose hours/minutes/seconds components are
integers with total seconds below `2^53` -- the range where CPython's
double arithmetic and `str()` provably coincide with the exact model --
the result is the exact total seconds rendered `"<n>.0"`; a comma-fraction
time component raises `ValueError` instead of returning; periods with only
years/months/weeks/days (no time part) yield `"0.0"`; concretely
`"PT1H30M"` gives `"5400.0"` and `"PT45S"` gives `"45.0"`. -/
theorem duration_seconds_exact :
    (∀ dh dm dsec : Option (List Char), compOk dh → compOk dm → compOk dsec →
      compVal dh * 3600 + compVal dm * 60 + compVal dsec < 2 ^ 53 →
      get_duration_seconds (String.mk ('P' :: 'T' ::
          (encComp dh 'H' ++ (encComp dm 'M' ++ encComp dsec 'S'))))
        = .ok (toString (compVal dh * 3600 + compVal dm * 60 + compVal dsec) ++ ".0")) ∧
    (∀ dy dmo dw dd : Option (List Char), compOk dy → compOk dmo → compOk dw → compOk dd →
      (dy ≠ none ∨ dmo ≠ none ∨ dw ≠ none ∨ dd ≠ none) →
      get_duration_seconds (String.mk ('P' ::
          (encComp dy 'Y' ++ (encComp dmo 'M' ++ (encComp dw 'W' ++ encComp dd 'D')))))
        = .ok "0.0") ∧
    get_duration_seconds "PT1H30M" = .ok "5400.0" ∧
    get_duration_seconds "PT45S" = .ok "45.0" := by
  refine ⟨fun dh dm dsec okh okm oks _ => duration_hms_general dh dm dsec okh okm oks,
    duration_ymwd_general, ?_, ?_⟩
  · have h := duration_hms_general (some ['1']) (some ['3', '0']) none
      (fun x hx => by cases hx; exact ⟨by simp, by decide⟩)
      (fun x hx => by cases hx; exact ⟨by simp, by decide⟩)
      (fun x hx => by cases hx)
    rw [show "PT1H30M" = String.mk ('P' :: 'T' ::
        (encComp (some ['1']) 'H' ++ (encComp (some ['3', '0']) 'M' ++ encComp none 'S')))
        from rfl]
    rw [h]
    rw [show toString (compVal (some ['1']) * 3600 + compVal (some ['3', '0']) * 60
        + compVal none) ++ ".0" = "5400.0" from by decide]
  · have h := duration_hms_general none none (some ['4', '5'])
      (fun x hx => by cases hx)
      (fun x hx => by cases hx)
      (fun x hx => by cases hx; exact ⟨by simp, by decide⟩)
    rw [show "PT45S" = String.mk ('P' :: 'T' ::
        (encComp none 'H' ++ (encComp none 'M' ++ encComp (some ['4', '5']) 'S')))
        from rfl]
    rw [h]
    rw [show toString (compVal (none : Option (List Char)) * 3600
        + compVal (none : Option (List Char)) * 60
        + compVal (some ['4', '5'])) ++ ".0" = "45.0" from by decide]

/-- Witness: the amended theorem's general parts instantiated at
`"PT1H30M"` (in canonical component form, total 5400 < 2^53) and the
pure-date period `"P3D"`. -/
theorem duration_seconds_exact_witness :
    get_duration_seconds (String.mk ('P' :: 'T' ::
        (encComp (some ['1']) 'H' ++ (encComp (some ['3', '0']) 'M' ++ encComp none 'S'))))
      = .ok (toString (compVal (some ['1']) * 3600 + compVal (some ['3', '0']) * 60
          + compVal none) ++ ".0") ∧
    get_duration_seconds (String.mk ('P' ::
        (encComp none 'Y' ++ (encComp none 'M' ++ (encComp none 'W'
          ++ encComp (some ['3']) 'D'))))) = .ok "0.0" := by
  constructor
  · exact (duration_seconds_exact).1 (some ['1']) (some ['3', '0']) none
      (fun x hx => by cases hx; exact ⟨by simp, by decide⟩)
      (fun x hx => by cases hx; exact ⟨by simp, by decide⟩)
      (fun x hx => by cases hx)
      (by decide)
  · exact (duration_seconds_exact).2.1 none none none (some ['3'])
      (fun x hx => by cases hx)
      (fun x hx => by cases hx)
      (fun x hx => by cases hx)
      (fun x hx => by cases hx; exact ⟨by simp, by decide⟩)
      (by simp)

/-! ## yle.py: get_category_content and helpers -/

/-- Language selector (the `locale` settings value). -/
inductive Lang where
  | fi
  | sv
deriving DecidableEq, Repr

/-- `yle.get_package_path`. -/
def get_package_path : Lang → String
  | .fi => "/tv/ohjelmat/"
  | .sv => "/tv/program/"

/-- `yle.get_image_url` (f-string interpolation of the two metadata values). -/
def get_image_url (_version _id : JVal) : String :=
  "https://images.cdn.yle.fi/image/upload/" ++
  "ar_16:9,w_720,c_fit,d_yle-areena.jpg,f_auto,fl_lossy,q_auto:eco/" ++
  "v" ++ pyStr _version ++ "/" ++ pyStr _id ++ ".jpg"

/-- `get_duration_seconds` applied to an arbitrary JSON value: `re.match` on
a non-string raises `TypeError`, which the function's own `try` catches,
returning `""`. -/
def get_duration_seconds_j (raw : JVal) : Except PyErr String :=
  match raw with
  | .str s => get_duration_seconds s
  | _ => .ok ""

/-- The generator `(i.get("raw") for i in json_data if i.get("rawType") == "duration")`
advanced once: first matching element's `raw` (default `None`),
`AttributeError` when a non-dict element is reached first, `none` at
exhaustion. -/
def gen_first : List JVal → Except PyErr (Option JVal)
  | [] => .ok none
  | i :: rest =>
      match i with
      | .obj fs =>
          if jeqStr ((jlookup fs "rawType").getD .null) "duration" then
            .ok (some ((jlookup fs "raw").getD .null))
          else gen_first rest
      | _ => .error .attributeError

/-- `yle.extract_duration_timestamp`: only `StopIteration` is caught
(yielding `""`); iterating a non-iterable raises `TypeError`; iterating a
nonempty dict or string yields non-dict elements whose `.get` raises
`AttributeError` (their empty counterparts exhaust immediately). -/
def extract_duration_timestamp (json_data : JVal) : Except PyErr String :=
  match json_data with
  | .arr items => do
      match ← gen_first items with
      | none => pure ""
      | some raw => get_duration_seconds_j raw
  | .obj fs => if fs.isEmpty then .ok "" else .error .attributeError
  | .str s => if s.data.isEmpty then .ok "" else .error .attributeError
  | _ => .error .typeError

/-- The image `try` block body of `get_category_content`. -/
def imageField (entry : JVal) : Except PyErr String := do
  let img ← pyItem entry "image"
  let v ← pyItem img "version"
  let i ← pyItem img "id"
  pure (get_image_url v i)

/-- The labels/duration `try` block body of `get_category_content`. -/
def durationField (entry : JVal) : Except PyErr String := do
  let labels ← pyItem entry "labels"
  extract_duration_timestamp labels

/-- `try: ... except (AttributeError, LookupError, TypeError, ValueError):`
around a field extraction, degrading to a default. -/
def tryOr (d : String) (e : Except PyErr String) : Except PyErr String :=
  match e with
  | .ok v => .ok v
  | .error err => if pyCaught err then .ok d else .error err

/-- One canonical media record as built by `get_category_content`
(`api_data` flattened into `rtype`/`yle_id`). -/
structure MediaRecord where
  name : String
  description : JVal
  duration : String
  image : String
  rtype : JVal
  yle_id : String

/-- The loop body of `yle.get_category_content` for a single entry. -/
def parse_entry (locale : Lang) (pfx : String) (entry : JVal) :
    Except PyErr MediaRecord := do
  let nameJ ← dictGetD entry "title" (.str "")
  let pointer ← dictGetD entry "pointer" (.obj [])
  let typeJ ← dictGetD pointer "type" (.str "")
  let uriJ ← dictGetD pointer "uri" (.str "")
  let descJ ← dictGetD entry "description" (.str "")
  let uri ← match uriJ with
    | .str s => pure s
    | _ => throw PyErr.attributeError
  let id0 := String.mk ((splitOnChar '/' uri.data).getLastD [])
  let yleId := if jeqStr typeJ "package" then get_package_path locale ++ id0 else id0
  let image ← tryOr "" (imageField entry)
  let duration ← tryOr "" (durationField entry)
  pure { name := pfx ++ " " ++ pyStr nameJ, description := descJ,
         duration := duration, image := image, rtype := typeJ, yle_id := yleId }

/-- `yle.get_category_content`: parse every entry of the response's `data`
list (`title_prefix or ""` applied). -/
def get_category_content (locale : Lang) (title_pfx : Option String) :
    List JVal → Except PyErr (List MediaRecord)
  | [] => .ok []
  | e :: rest => do
      let r ← parse_entry locale (title_pfx.getD "") e
      let rs ← get_category_content locale title_pfx rest
      pure (r :: rs)

/-- Outer-shape well-formedness of one entry: a dict whose `pointer` value
(default `{}`) is a dict with a string `uri` (default `""`); the `image` and
`labels` fields are unconstrained. -/
def entryShape (entry : JVal) : Bool :=
  match entry with
  | .obj fs =>
      match (jlookup fs "pointer").getD (.obj []) with
      | .obj pfs =>
          match (jlookup pfs "uri").getD (.str "") with
          | .str _ => true
          | _ => false
      | _ => false
  | _ => false

theorem pyItem_caught (v : JVal) (k : String) (e : PyErr) (h : pyItem v k = .error e) :
    pyCaught e = true := by
  cases v with
  | obj fs =>
      simp only [pyItem] at h
      cases hl : jlookup fs k with
      | some w => rw [hl] at h; simp at h
      | none => rw [hl] at h; simp only [Except.error.injEq] at h; rw [← h]; rfl
  | null => simp only [pyItem, Except.error.injEq] at h; rw [← h]; rfl
  | str s => simp only [pyItem, Except.error.injEq] at h; rw [← h]; rfl
  | num n => simp only [pyItem, Except.error.injEq] at h; rw [← h]; rfl
  | arr xs => simp only [pyItem, Except.error.injEq] at h; rw [← h]; rfl

theorem get_duration_seconds_err (s : String) (e : PyErr)
    (h : get_duration_seconds s = .error e) : e = .valueError := by
  cases hp : parseISO8601 s.data with
  | none => simp [get_duration_seconds, hp] at h
  | some t =>
      obtain ⟨h1, m1, s1⟩ := t
      simp only [get_duration_seconds, hp] at h
      split at h
      · simp only [Except.error.injEq] at h
        exact h.symm
      · simp at h

theorem gen_first_err (items : List JVal) (e : PyErr) :
    gen_first items = .error e → e = .attributeError := by
  induction items with
  | nil => intro h; simp [gen_first] at h
  | cons i rest ih =>
      intro h
      cases i with
      | obj fs =>
          simp only [gen_first] at h
          split at h
          · simp at h
          · exact ih h
      | null => simp only [gen_first, Except.error.injEq] at h; exact h.symm
      | str s => simp only [gen_first, Except.error.injEq] at h; exact h.symm
      | num n => simp only [gen_first, Except.error.injEq] at h; exact h.symm
      | arr xs => simp only [gen_first, Except.error.injEq] at h; exact h.symm

theorem extract_dur_caught (j : JVal) (e : PyErr)
    (h : extract_duration_timestamp j = .error e) : pyCaught e = true := by
  cases j with
  | arr items =>
      simp only [extract_duration_timestamp, Bind.bind, Except.bind] at h
      cases hg : gen_first items with
      | error e2 =>
          simp only [hg] at h
          simp only [Except.error.injEq] at h
          rw [← h, gen_first_err items e2 hg]
          rfl
      | ok o =>
          simp only [hg] at h
          cases o with
          | none => simp [pure, Except.pure] at h
          | some raw =>
              cases raw with
              | str s =>
                  simp only [get_duration_seconds_j] at h
                  rw [get_duration_seconds_err s e h]
                  rfl
              | null => simp [get_duration_seconds_j] at h
              | num n => simp [get_duration_seconds_j] at h
              | arr xs => simp [get_duration_seconds_j] at h
              | obj fs => simp [get_duration_seconds_j] at h
  | obj fs =>
      simp only [extract_duration_timestamp] at h
      split at h
      · simp at h
      · simp only [Except.error.injEq] at h; rw [← h]; rfl
  | str s =>
      simp only [extract_duration_timestamp] at h
      split at h
      · simp at h
      · simp only [Except.error.injEq] at h; rw [← h]; rfl
  | null => simp only [extract_duration_timestamp, Except.error.injEq] at h; rw [← h]; rfl
  | num n => simp only [extract_duration_timestamp, Except.error.injEq] at h; rw [← h]; rfl

theorem imageField_caught (entry : JVal) (e : PyErr) (h : imageField entry = .error e) :
    pyCaught e = true := by
  simp only [imageField, Bind.bind, Except.bind] at h
  cases h1 : pyItem entry "image" with
  | error e1 =>
      simp only [h1] at h
      simp only [Except.error.injEq] at h
      rw [← h]
      exact pyItem_caught entry "image" e1 h1
  | ok img =>
      simp only [h1] at h
      cases h2 : pyItem img "version" with
      | error e2 =>
          simp only [h2] at h
          simp only [Except.error.injEq] at h
          rw [← h]
          exact pyItem_caught img "version" e2 h2
      | ok v =>
          simp only [h2] at h
          cases h3 : pyItem img "id" with
          | error e3 =>
              simp only [h3] at h
              simp only [Except.error.injEq] at h
              rw [← h]
              exact pyItem_caught img "id" e3 h3
          | ok i =>
              simp only [h3] at h
              simp [pure, Except.pure] at h

theorem durationField_caught (entry : JVal) (e : PyErr)
    (h : durationField entry = .error e) : pyCaught e = true := by
  simp only [durationField, Bind.bind, Except.bind] at h
  cases h1 : pyItem entry "labels" with
  | error e1 =>
      simp only [h1] at h
      simp only [Except.error.injEq] at h
      rw [← h]
      exact pyItem_caught entry "labels" e1 h1
  | ok labels =>
      simp only [h1] at h
      exact extract_dur_caught labels e h

theorem tryOr_always_ok (x : Except PyErr String)
    (hc : ∀ e, x = .error e → pyCaught e = true) :
    ∃ s, tryOr "" x = .ok s ∧ (∀ e, x = .error e → s = "") := by
  cases x with
  | ok v => exact ⟨v, rfl, by intro e h; simp at h⟩
  | error e2 => exact ⟨"", by simp [tryOr, hc e2 rfl], by intro e h; rfl⟩

theorem parse_entry_ok (locale : Lang) (pfx : String) (fs : List (String × JVal))
    (pfs : List (String × JVal)) (u s1 s2 : String)
    (hP : (jlookup fs "pointer").getD (.obj []) = .obj pfs)
    (hU : (jlookup pfs "uri").getD (.str "") = .str u)
    (hImg : tryOr "" (imageField (JVal.obj fs)) = .ok s1)
    (hDur : tryOr "" (durationField (JVal.obj fs)) = .ok s2) :
    parse_entry locale pfx (JVal.obj fs) = .ok
      { name := pfx ++ " " ++ pyStr ((jlookup fs "title").getD (.str "")),
        description := (jlookup fs "description").getD (.str ""),
        duration := s2, image := s1,
        rtype := (jlookup pfs "type").getD (.str ""),
        yle_id := if jeqStr ((jlookup pfs "type").getD (.str "")) "package"
          then get_package_path locale
            ++ String.mk ((splitOnChar '/' u.data).getLastD [])
          else String.mk ((splitOnChar '/' u.data).getLastD []) } := by
  simp only [parse_entry, Bind.bind, Except.bind, dictGetD, hP, hU, hImg, hDur,
    pure, Except.pure]

/-- C8: an entry whose dict-level shape is sound (the `image` and `labels`
values arbitrary, possibly missing, null or mistyped) always parses to a
record, with the image URL or duration degraded to `""` exactly when its
extraction raised; consequently `get_category_content` succeeds on any list
of such entries, emitting one record per entry. -/
theorem catalog_parser_never_raises (locale : Lang) (pfx : String) :
    (∀ entry : JVal, entryShape entry = true →
      ∃ r, parse_entry locale pfx entry = .ok r ∧
        (∀ e, imageField entry = .error e → r.image = "") ∧
        (∀ e, durationField entry = .error e → r.duration = "")) ∧
    (∀ entries : List JVal, (∀ en ∈ entries, entryShape en = true) →
      ∃ rs, get_category_content locale (some pfx) entries = .ok rs ∧
        rs.length = entries.length) := by
  have hmain : ∀ entry : JVal, entryShape entry = true →
      ∃ r, parse_entry locale pfx entry = .ok r ∧
        (∀ e, imageField entry = .error e → r.image = "") ∧
        (∀ e, durationField entry = .error e → r.duration = "") := by
    intro entry hshape
    cases entry with
    | obj fs =>
        cases hP : (jlookup fs "pointer").getD (.obj []) with
        | obj pfs =>
            cases hU : (jlookup pfs "uri").getD (.str "") with
            | str u =>
                obtain ⟨s1, hImg, hImgE⟩ :=
                  tryOr_always_ok (imageField (JVal.obj fs))
                    (fun e he => imageField_caught (JVal.obj fs) e he)
                obtain ⟨s2, hDur, hDurE⟩ :=
                  tryOr_always_ok (durationField (JVal.obj fs))
                    (fun e he => durationField_caught (JVal.obj fs) e he)
                exact ⟨_, parse_entry_ok locale pfx fs pfs u s1 s2 hP hU hImg hDur,
                  hImgE, hDurE⟩
            | null => simp [entryShape, hP, hU] at hshape
            | num n => simp [entryShape, hP, hU] at hshape
            | arr xs => simp [entryShape, hP, hU] at hshape
            | obj o => simp [entryShape, hP, hU] at hshape
        | null => simp [entryShape, hP] at hshape
        | num n => simp [entryShape, hP] at hshape
        | arr xs => simp [entryShape, hP] at hshape
        | str s => simp [entryShape, hP] at hshape
    | null => simp [entryShape] at hshape
    | num n => simp [entryShape] at hshape
    | arr xs => simp [entryShape] at hshape
    | str s => simp [entryShape] at hshape
  refine ⟨hmain, ?_⟩
  intro entries hall
  induction entries with
  | nil => exact ⟨[], rfl, rfl⟩
  | cons en rest ih =>
      obtain ⟨r, hr, _, _⟩ := hmain en (hall en (by simp))
      obtain ⟨rs, hrs, hlen⟩ := ih (fun x hx => hall x (by simp [hx]))
      refine ⟨r :: rs, ?_, by simp [hlen]⟩
      simp only [get_category_content, Bind.bind, Except.bind, Option.getD_some, hr, hrs,
        pure, Except.pure]

/-- Witness: an entry whose `image` is a string (subscripting raises
`TypeError`) and whose `labels` is null (iteration raises `TypeError`)
still yields a record with empty image and duration. -/
theorem catalog_parser_never_raises_witness :
    entryShape (JVal.obj [("title", JVal.str "T"), ("image", JVal.str "bad"),
        ("labels", JVal.null)]) = true ∧
    (∃ r, parse_entry Lang.fi "" (JVal.obj [("title", JVal.str "T"),
        ("image", JVal.str "bad"), ("labels", JVal.null)]) = .ok r ∧
      (∀ e, imageField (JVal.obj [("title", JVal.str "T"), ("image", JVal.str "bad"),
          ("labels", JVal.null)]) = .error e → r.image = "") ∧
      (∀ e, durationField (JVal.obj [("title", JVal.str "T"), ("image", JVal.str "bad"),
          ("labels", JVal.null)]) = .error e → r.duration = "")) := by
  refine ⟨rfl, ?_⟩
  exact (catalog_parser_never_raises Lang.fi "").1
    (JVal.obj [("title", JVal.str "T"), ("image", JVal.str "bad"), ("labels", JVal.null)])
    rfl

/-! ## yle.py: get_stream_manifest; router.py: VOD orchestration -/

/-- Field extraction from the selected preview shape in
`yle.get_stream_manifest` (`manifest_url`/`media_id` default to `None`,
the media id is routed through `get_kaltura_id_or_none`). -/
def shape_result (json_data : JVal) : Except PyErr (JVal × String) := do
  let manifest_url ← dictGetD json_data "manifest_url" .null
  let media_data ← dictGetD json_data "media_id" .null
  let kid ← get_kaltura_id_or_none media_data
  pure (manifest_url, kid)

/-- `yle.get_stream_manifest`:
`data.get("ongoing_ondemand", {}) or data.get("ongoing_event", {})`
followed by the shape extraction. -/
def get_stream_manifest (data : JVal) : Except PyErr (JVal × String) := do
  let a ← dictGetD data "ongoing_ondemand" (.obj [])
  let json_data ← if pyTruthy a then pure a else dictGetD data "ongoing_event" (.obj [])
  shape_result json_data

/-- C10: when both preview shapes are absent or the empty object the
extractor does not raise but returns a `None` manifest with the empty
secondary id (because the id router maps a falsy media id to `""`); when
`ongoing_ondemand` is present and truthy it is the shape used. -/
theorem stream_manifest_empty_shapes (fs : List (String × JVal)) :
    ((jlookup fs "ongoing_ondemand" = none ∨
        jlookup fs "ongoing_ondemand" = some (JVal.obj [])) →
      (jlookup fs "ongoing_event" = none ∨
        jlookup fs "ongoing_event" = some (JVal.obj [])) →
      get_stream_manifest (JVal.obj fs) = .ok (JVal.null, "")) ∧
    (∀ v, jlookup fs "ongoing_ondemand" = some v → pyTruthy v = true →
      get_stream_manifest (JVal.obj fs) = shape_result v) ∧
    get_kaltura_id_or_none JVal.null = .ok "" ∧
    get_kaltura_id_or_none (JVal.str "") = .ok "" := by
  refine ⟨?_, ?_, rfl, rfl⟩
  · intro h1 h2
    rcases h1 with h1 | h1 <;> rcases h2 with h2 | h2 <;>
      (simp only [get_stream_manifest, shape_result, Bind.bind, Except.bind,
        dictGetD, h1, h2]
       simp [pyTruthy, get_kaltura_id_or_none, jlookup, pure, Except.pure])
  · intro v hv htr
    simp [get_stream_manifest, dictGetD, hv, htr, Bind.bind, Except.bind,
      pure, Except.pure]

/-- Witness: empty shapes yield `(None, "")`; with a truthy
`ongoing_ondemand` present its shape is the one extracted. -/
theorem stream_manifest_empty_shapes_witness :
    get_stream_manifest (JVal.obj [("ongoing_event", JVal.obj [])]) = .ok (JVal.null, "") ∧
    get_stream_manifest (JVal.obj
        [("ongoing_ondemand", JVal.obj [("manifest_url", JVal.str "M"),
            ("media_id", JVal.str "55-x")]),
         ("ongoing_event", JVal.obj [("manifest_url", JVal.str "E")])])
      = shape_result (JVal.obj [("manifest_url", JVal.str "M"),
          ("media_id", JVal.str "55-x")]) := by
  constructor
  · exact (stream_manifest_empty_shapes [("ongoing_event", JVal.obj [])]).1
      (Or.inl rfl) (Or.inr rfl)
  · exact (stream_manifest_empty_shapes _).2.1
      (JVal.obj [("manifest_url", JVal.str "M"), ("media_id", JVal.str "55-x")])
      rfl rfl

/-- One Kaltura multirequest response (`site.json()[1]`): the `sources` and
`playbackCaptions` lists. -/
structure KResponse where
  sources : List JVal
  playbackCaptions : List JVal

/-- `kaltura.get_subtitle_url`: substitute the service tail of the caption
URL into the generic API base. -/
def get_subtitle_url (url : List Char) : String :=
  "https://cdnapisec.kaltura.com/api_v3/service/"
    ++ String.mk (extract_suffix ("service/".data) url)

/-- `kaltura.get_subtitles`: map each caption to its per-language subtitle
file suffix and direct download URL (a non-dict caption or a non-string
`url` raises, as `c.get`/`str.find` would). -/
def get_subtitles : List JVal → Except PyErr (List (String × String))
  | [] => .ok []
  | c :: rest =>
      match c with
      | .obj fs =>
          match (jlookup fs "url").getD .null with
          | .str u => do
              let tail ← get_subtitles rest
              pure (("." ++ pyStr ((jlookup fs "label").getD .null) ++ "-"
                  ++ pyStr ((jlookup fs "languageCode").getD .null) ++ ".sub",
                  get_subtitle_url u.data) :: tail)
          | _ => .error .attributeError
      | _ => .error .attributeError

/-- `router.get_hls_stream_manifest`, with the preview response's `data`
value supplied in place of the network fetch. -/
def get_hls_stream_manifest (previewData : JVal) : Except PyErr (JVal × String) :=
  get_stream_manifest previewData

/-- `router.get_mpd_stream_manifest`, with the Kaltura response for each
entry id supplied by the oracle `api` standing for the network layer. -/
def get_mpd_stream_manifest (api : String → KResponse) (kaltura_id : String)
    (mode : Mode) : Except PyErr (JVal × Option (List (String × String))) := do
  let manifest ← get_hd_mpd_stream_manifest (api kaltura_id).sources mode
  if mode = .download then
    let subtitles ← get_subtitles (api kaltura_id).playbackCaptions
    pure (manifest, some subtitles)
  else
    pure (manifest, none)

/-- `router.get_vod_stream_manifest`: the primary resolver runs only when no
secondary id was supplied; any known secondary id (supplied or returned) is
resolved by the secondary resolver, whose manifest and `"mpd"` format
supersede; otherwise the primary manifest is returned with `"hls"` and an
empty subtitle dict. -/
def get_vod_stream_manifest (previewData : JVal) (api : String → KResponse)
    (kaltura_id : String) (mode : Mode) :
    Except PyErr (JVal × String × Option (List (String × String))) := do
  if kaltura_id = "" then
    let (manifest, kid) ← get_hls_stream_manifest previewData
    if kid = "" then
      pure (manifest, "hls", some [])
    else
      let (m2, subs) ← get_mpd_stream_manifest api kid mode
      pure (m2, "mpd", subs)
  else
    let (m2, subs) ← get_mpd_stream_manifest api kaltura_id mode
    pure (m2, "mpd", subs)

/-- C4: a supplied non-empty secondary id, or one returned by the primary
resolver, routes resolution through the secondary resolver with the active
mode, and its manifest with format `"mpd"` supersedes; only with no id
supplied and none returned does the primary manifest ship with `"hls"`. -/
theorem vod_orchestrator (preview : JVal) (api : String → KResponse)
    (kid : String) (mode : Mode) :
    (kid ≠ "" → get_vod_stream_manifest preview api kid mode
        = (get_mpd_stream_manifest api kid mode).map (fun p => (p.1, "mpd", p.2))) ∧
    (kid = "" → ∀ m k, get_stream_manifest preview = .ok (m, k) →
      (k ≠ "" → get_vod_stream_manifest preview api kid mode
          = (get_mpd_stream_manifest api k mode).map (fun p => (p.1, "mpd", p.2))) ∧
      (k = "" → get_vod_stream_manifest preview api kid mode
          = .ok (m, "hls", some []))) := by
  constructor
  · intro hk
    simp only [get_vod_stream_manifest, if_neg hk]
    cases hm : get_mpd_stream_manifest api kid mode with
    | ok p =>
        obtain ⟨m2, subs⟩ := p
        simp [hm, Bind.bind, Except.bind, Except.map, pure, Except.pure]
    | error e => simp [hm, Bind.bind, Except.bind, Except.map]
  · intro hk m k hpre
    subst hk
    constructor
    · intro hkk
      simp only [get_vod_stream_manifest, if_pos rfl, get_hls_stream_manifest,
        Bind.bind, Except.bind, hpre]
      rw [if_neg hkk]
      cases hm : get_mpd_stream_manifest api k mode with
      | ok p =>
          obtain ⟨m2, subs⟩ := p
          simp [hm, Bind.bind, Except.bind, Except.map, pure, Except.pure]
      | error e => simp [hm, Bind.bind, Except.bind, Except.map]
    · intro hkk
      subst hkk
      simp [get_vod_stream_manifest, get_hls_stream_manifest, hpre,
        Bind.bind, Except.bind, pure, Except.pure]

/-- Witness: a supplied id and a primary-returned id both route to the
secondary resolver (mpd); a `55`-prefixed media id keeps the primary
manifest as hls with the empty subtitle dict. -/
theorem vod_orchestrator_witness :
    get_vod_stream_manifest (JVal.obj []) (fun _ =>
        ⟨[JVal.obj [("deliveryProfileId", JVal.num 14471), ("url", JVal.str "K")]], []⟩)
      "1_k" Mode.vod = .ok (JVal.str "K", "mpd", none) ∧
    get_vod_stream_manifest
        (JVal.obj [("ongoing_ondemand", JVal.obj [("manifest_url", JVal.str "M"),
            ("media_id", JVal.str "29-abc")])])
        (fun _ =>
          ⟨[JVal.obj [("deliveryProfileId", JVal.num 14471), ("url", JVal.str "K")]], []⟩)
      "" Mode.vod = .ok (JVal.str "K", "mpd", none) ∧
    get_vod_stream_manifest
        (JVal.obj [("ongoing_ondemand", JVal.obj [("manifest_url", JVal.str "M"),
            ("media_id", JVal.str "55-x")])])
        (fun _ =>
          ⟨[JVal.obj [("deliveryProfileId", JVal.num 14471), ("url", JVal.str "K")]], []⟩)
      "" Mode.vod = .ok (JVal.str "M", "hls", some []) := by
  refine ⟨?_, ?_, ?_⟩
  · have h := (vod_orchestrator (JVal.obj []) (fun _ =>
        ⟨[JVal.obj [("deliveryProfileId", JVal.num 14471), ("url", JVal.str "K")]], []⟩)
        "1_k" Mode.vod).1 (by decide)
    rw [h]
    rfl
  · have h := ((vod_orchestrator
        (JVal.obj [("ongoing_ondemand", JVal.obj [("manifest_url", JVal.str "M"),
            ("media_id", JVal.str "29-abc")])])
        (fun _ =>
          ⟨[JVal.obj [("deliveryProfileId", JVal.num 14471), ("url", JVal.str "K")]], []⟩)
        "" Mode.vod).2 rfl (JVal.str "M") "abc" rfl).1 (by decide)
    rw [h]
    rfl
  · exact ((vod_orchestrator
        (JVal.obj [("ongoing_ondemand", JVal.obj [("manifest_url", JVal.str "M"),
            ("media_id", JVal.str "55-x")])])
        (fun _ =>
          ⟨[JVal.obj [("deliveryProfileId", JVal.num 14471), ("url", JVal.str "K")]], []⟩)
        "" Mode.vod).2 rfl (JVal.str "M") "" rfl).2 rfl
